import Mathlib

/-!
Shallow embedding of the wallet-file lifecycle and backup-rotation logic of
`src/WalletAdapter.cpp` (class `WalletGui::WalletAdapter`).  Strings are
modelled as `List Char`, the file system as a list of files with path,
modification time and an opaque content tag, and each C++ member function
becomes a pure state-transition function.  Engine calls that may throw
`std::system_error` are modelled by `Except`/`Option` parameters supplied by
the environment.
-/

deriving instance DecidableEq for Except

namespace WalletGui

abbrev Str := List Char

/-! ### Qt string operations used by the adapter -/

/-- The `QString::lastIndexOf(pat)` scanning candidate start positions downward
from `i`; returns the greatest index at which `pat` occurs. -/
def lastOccFrom (s pat : Str) : Nat → Option Nat
  | 0 => if pat.isPrefixOf s then some 0 else none
  | i + 1 => if pat.isPrefixOf (s.drop (i + 1)) then some (i + 1) else lastOccFrom s pat i

/-- The `QString::lastIndexOf(pat)`: index of the last occurrence of `pat` in `s`,
`none` when absent (C++ returns -1). -/
def qlastIndexOf (s pat : Str) : Option Nat :=
  lastOccFrom s pat s.length

/-- The `QString::replace(pos, len, after)`: with a negative position (modelled by
`none`) the string is unchanged; otherwise the `len` characters at `pos` are
replaced by `after` (clamped at the end of the string). -/
def qreplace (s : Str) (pos : Option Nat) (len : Nat) (after : Str) : Str :=
  match pos with
  | none => s
  | some p => if p ≤ s.length then s.take p ++ after ++ s.drop (p + len) else s

/-- The `QFileInfo::fileName()`: the part of a path after the last slash. -/
def fileNameOf (s : Str) : Str :=
  (s.reverse.takeWhile (fun c => c ≠ '/')).reverse

/-- The `QString::section(".", 0, 0)`: the part of the name before the first dot. -/
def sectionFirst (s : Str) : Str :=
  s.takeWhile (fun c => c ≠ '.')

/-- Match of a filename against the Qt name filter `pre ++ "*" ++ suf`
(used as `walletName + "*.wallet"`). -/
def globMatch (pre suf name : Str) : Bool :=
  pre.isPrefixOf name && suf.isSuffixOf (name.drop pre.length)

/-- The extension string `".wallet"`. -/
def walletExt : Str := '.' :: 'w' :: 'a' :: 'l' :: 'l' :: 'e' :: 't' :: []

/-- The extension string `".keys"`. -/
def keysExt : Str := '.' :: 'k' :: 'e' :: 'y' :: 's' :: []

/-- The suffix `".temp"` of temporary save files. -/
def tempExt : Str := '.' :: 't' :: 'e' :: 'm' :: 'p' :: []

/-- The `pat` occurs somewhere inside `s` (QString::contains). -/
def containsSub (s pat : Str) : Bool := (qlastIndexOf s pat).isSome

/-! ### File system model -/

/-- One on-disk file: absolute path, modification time, opaque content tag. -/
structure BFile where
  path : Str
  mtime : Nat
  content : Nat
deriving DecidableEq

/-- The `p` names a file directly inside directory `dir`
(`dir ++ "/" ++ name` with a slash-free `name`). -/
def isInDir (p dir : Str) : Bool :=
  (dir ++ ['/']).isPrefixOf p && ((p.drop (dir.length + 1)).filter (fun c => c = '/')).isEmpty

/-- The filename component of a path known to lie in `dir`. -/
def nameInDir (p dir : Str) : Str :=
  p.drop (dir.length + 1)

def fileExists (fs : List BFile) (p : Str) : Bool :=
  fs.any (fun f => f.path = p)

def findFile (fs : List BFile) (p : Str) : Option BFile :=
  fs.find? (fun f => f.path = p)

/-- The `QFile::remove(p)`: the file at path `p` disappears. -/
def removeFileFS (fs : List BFile) (p : Str) : List BFile :=
  fs.filter (fun f => ¬ f.path = p)

/-- The `QFile::copy(src, dst)` at time `t`: succeeds only when the source exists,
the destination does not, and the destination's directory exists; on success a
new file with the source's content appears at `dst`. -/
def copyFileFS (fs : List BFile) (dirs : List Str) (src dst : Str) (t : Nat) : List BFile :=
  match findFile fs src with
  | none => fs
  | some f =>
    if fileExists fs dst then fs
    else if dirs.any (fun d => isInDir dst d) then fs ++ [⟨dst, t, f.content⟩]
    else fs

/-- The `QFile::rename(old, new)`: succeeds only when `old` exists and `new` does
not; the file keeps its identity and changes path. -/
def renameFS (fs : List BFile) (old new : Str) : List BFile :=
  if fileExists fs old && !fileExists fs new then
    fs.map (fun f => if f.path = old then { f with path := new } else f)
  else fs

/-- The `WalletAdapter::renameFile(old, new)` (lines 525-529): remove the
destination, then rename. -/
def renameFileOp (fs : List BFile) (old new : Str) : List BFile :=
  renameFS (removeFileFS fs new) old new

/-! ### Adapter state -/

/-- Result of the engine wallet's observable getters; `Except Unit` models a
thrown `std::system_error`. -/
structure EngineWallet where
  address : Except Unit Str
  actualBalance : Except Unit Nat
  pendingBalance : Except Unit Nat
deriving DecidableEq

/-- Qt signals emitted by the adapter that the claims mention. -/
inductive Signal where
  | stateChanged
  | openWalletWithPassword (encrypted : Bool)
  | walletInitCompleted (code : Int)
  | walletSaveCompleted
  | txCreated (id : Nat)
  | closeCompleted
  | balancesAndAddressUpdated
deriving DecidableEq

/-- Low-level lock / file events, recording the order of operations inside
`openFile`/`closeFile`. -/
inductive Ev where
  | lock
  | unlock
  | osOpen (ok : Bool)
  | osClose
deriving DecidableEq

/-- The `std::numeric_limits<quint64>::max()`, the sentinel stored in
`m_lastWalletTransactionId`. -/
def QUINT64_MAX : Nat := 2 ^ 64 - 1

/-- The `CryptoNote::error::WRONG_PASSWORD` (a fixed nonzero engine error code). -/
def WRONG_PASSWORD : Int := 4

/-- The adapter's state: wallet pointer, settings, mutex depth, stream-open
flag, backup flag, last-transaction id, the file system, the set of existing
directories, the emitted signals and the low-level event trace. -/
structure St where
  wallet : Option EngineWallet
  walletFile : Str
  dataDir : Str
  encrypted : Bool
  isBackupInProgress : Bool
  lastTxId : Nat
  fileIsOpen : Bool
  lockDepth : Nat
  fs : List BFile
  dirs : List Str
  signals : List Signal
  events : List Ev
deriving DecidableEq

/-! ### Lock and file handle (lines 487-516) -/

/-- The `WalletAdapter::lock()`: `m_mutex.lock()`. -/
def lockM (st : St) : St :=
  { st with lockDepth := st.lockDepth + 1, events := st.events ++ [Ev.lock] }

/-- The `WalletAdapter::unlock()`: `m_mutex.unlock()`. -/
def unlockM (st : St) : St :=
  { st with lockDepth := st.lockDepth - 1, events := st.events ++ [Ev.unlock] }

/-- The `WalletAdapter::openFile(file, readOnly)` (lines 495-511): lock, attempt
the stream open (its success `ok` is decided by the environment), and unlock
again when the open failed.  Returns `m_file.is_open()`. -/
def openFileM (ok : Bool) (st : St) : Bool × St :=
  let st := lockM st
  let st := { st with fileIsOpen := ok, events := st.events ++ [Ev.osOpen ok] }
  if ok then (true, st) else (false, unlockM st)

/-- The `WalletAdapter::closeFile()` (lines 513-516): close the stream, then
unlock. -/
def closeFileM (st : St) : St :=
  unlockM { st with fileIsOpen := false, events := st.events ++ [Ev.osClose] }

/-! ### backupOnOpen (lines 207-242) -/

/-- The backup directory `Settings::getDataDir().absoluteFilePath("backup")`. -/
def backupDirOf (dataDir : Str) : Str :=
  dataDir ++ '/' :: 'b' :: 'a' :: 'c' :: 'k' :: 'u' :: 'p' :: []

/-- The timestamped destination path computed at lines 213-215: start from
`backupDir/<fileName>`, then replace the last occurrence of `".wallet"` (7
characters) by `"." ++ nowStr ++ ".wallet"`. -/
def backupDestPath (walletFile dataDir : Str) (nowStr : Str) : Str :=
  let dest0 := backupDirOf dataDir ++ '/' :: fileNameOf walletFile
  qreplace dest0 (qlastIndexOf dest0 walletExt) 7 ('.' :: nowStr ++ walletExt)

/-- Lines 208-221: create the backup directory when missing, then remove an
already-existing destination and copy the wallet file to it. -/
def copyPhase (now : Nat) (nowStr : Str) (st : St) : St :=
  let backupDir := backupDirOf st.dataDir
  let st := if backupDir ∈ st.dirs then st else { st with dirs := backupDir :: st.dirs }
  let dest := backupDestPath st.walletFile st.dataDir nowStr
  let fs := if fileExists st.fs dest then removeFileFS st.fs dest else st.fs
  { st with fs := copyFileFS fs st.dirs st.walletFile dest now }

/-- The `QDir::Time` ordering of the retention scan: most recently modified
first. -/
def newestFirst (a b : BFile) : Prop := b.mtime ≤ a.mtime

instance : DecidableRel newestFirst := fun a b => Nat.decLe b.mtime a.mtime

instance : IsTotal BFile newestFirst :=
  ⟨fun a b => Nat.le_total b.mtime a.mtime⟩

instance : IsTrans BFile newestFirst :=
  ⟨fun _ _ _ h1 h2 => Nat.le_trans h2 h1⟩

/-- A file seen by the retention scan at lines 223-232: it lies in the backup
directory and its name matches the filter `walletName + "*.wallet"`, where
`walletName` is the wallet filename's part before the first dot. -/
def matchesScan (walletFile dataDir : Str) (f : BFile) : Bool :=
  isInDir f.path (backupDirOf dataDir) &&
    globMatch (sectionFirst (fileNameOf walletFile)) walletExt
      (nameInDir f.path (backupDirOf dataDir))

/-- Lines 223-241: list the matching backup files sorted by modification time
(newest first) and delete every entry past the tenth. -/
def retentionPhase (st : St) : St :=
  let sorted := List.insertionSort newestFirst
    (st.fs.filter (matchesScan st.walletFile st.dataDir))
  let toDelete := (sorted.drop 10).map BFile.path
  { st with fs := st.fs.filter (fun f => ¬ f.path ∈ toDelete) }

/-- The `WalletAdapter::backupOnOpen()` (lines 207-242). -/
def backupOnOpenM (now : Nat) (nowStr : Str) (st : St) : St :=
  retentionPhase (copyPhase now nowStr st)

/-! ### save / saveCompleted (lines 180-205, 377-391) -/

/-- The `WalletAdapter::save(file, details, cache)` (lines 184-199): open the file
for writing; on success hand it to the engine (`saveThrows` tells whether
`m_wallet->save` throws synchronously, which closes the file again) and emit
the state-changed signal. -/
def saveM (openOk saveThrows : Bool) (st : St) : Bool × St :=
  match openFileM openOk st with
  | (false, st) => (false, st)
  | (true, st) =>
    if saveThrows then (false, closeFileM st)
    else (true, { st with signals := st.signals ++ [Signal.stateChanged] })

/-- The `WalletAdapter::backup(file)` (lines 201-205): run a save to the external
file and raise `m_isBackupInProgress` when it started. -/
def backupM (openOk saveThrows : Bool) (st : St) : St :=
  match saveM openOk saveThrows st with
  | (true, st) => { st with isBackupInProgress := true }
  | (false, st) => st

/-- The `WalletAdapter::saveCompleted(error)` (lines 377-391): with no error and
no backup in progress, close the file and promote `<walletFile>.temp` over the
wallet file by remove-then-rename; a backup-copy save merely clears the flag
and closes the file; finally the save-completed signal is emitted. -/
def saveCompletedM (err : Bool) (st : St) : St :=
  let st :=
    if !err && !st.isBackupInProgress then
      let st := closeFileM st
      { st with
          fs := renameFileOp st.fs (st.walletFile ++ tempExt) st.walletFile,
          signals := st.signals ++ [Signal.stateChanged] }
    else if st.isBackupInProgress then
      closeFileM { st with isBackupInProgress := false }
    else
      closeFileM st
  { st with signals := st.signals ++ [Signal.walletSaveCompleted] }

/-! ### Legacy import (lines 135-163) -/

/-- Outcome of `CryptoNote::importLegacyKeys`: success, a thrown
`std::system_error` with a code, or a thrown `std::runtime_error`. -/
inductive LegacyOutcome where
  | success
  | sysErr (code : Int)
  | runtimeErr
deriving DecidableEq

/-- The `WalletAdapter::importLegacyWallet(password)` (lines 135-163).  The target
filename replaces the last `".keys"` (5 characters) by `".wallet"`; the file
is opened for writing and the importer runs; on a `WRONG_PASSWORD` system
error the encrypted flag is raised and the re-prompt signal emitted; every
failure path deletes the wallet object and returns false. -/
def importLegacyM (pw : Str) (openOk : Bool) (outcome : LegacyOutcome) (st : St) : Bool × St :=
  let fileName := qreplace st.walletFile (qlastIndexOf st.walletFile keysExt) 5 walletExt
  let st := { st with encrypted := !pw.isEmpty }
  match openFileM openOk st with
  | (false, st) => (false, { st with wallet := none })
  | (true, st) =>
    match outcome with
    | LegacyOutcome.success =>
      let st := closeFileM st
      (true, { st with walletFile := fileName })
    | LegacyOutcome.sysErr code =>
      let st := closeFileM st
      let st :=
        if code = WRONG_PASSWORD then
          { st with encrypted := true,
                    signals := st.signals ++ [Signal.openWalletWithPassword (!pw.isEmpty)] }
        else st
      (false, { st with wallet := none })
    | LegacyOutcome.runtimeErr =>
      let st := closeFileM st
      (false, { st with wallet := none })

/-! ### open / init completion (lines 84-120, 340-375) -/

/-- Environment choices for one run of `WalletAdapter::open`: the engine
object created, whether the stream opens, whether `initAndLoad` /
`initAndGenerate` throw synchronously, the legacy-import outcome, and the
current time. -/
structure OpenEnv where
  eng : EngineWallet
  openOk : Bool
  loadThrows : Bool
  genThrows : Bool
  legacyOpenOk : Bool
  legacyOutcome : LegacyOutcome
  now : Nat
  nowStr : Str
deriving DecidableEq

/-- Lines 102-110: open the wallet file read-only and start `initAndLoad`;
a synchronous throw closes the file and deletes the wallet. -/
def openLoadPhase (env : OpenEnv) (st : St) : St :=
  match openFileM env.openOk st with
  | (false, st) => st
  | (true, st) =>
    if env.loadThrows then { closeFileM st with wallet := none } else st

/-- The `WalletAdapter::open(password)` (lines 84-120). -/
def openWalletM (pw : Str) (env : OpenEnv) (st : St) : St :=
  let st := { st with encrypted := !pw.isEmpty,
                      signals := st.signals ++ [Signal.stateChanged],
                      wallet := some env.eng }
  if fileExists st.fs st.walletFile then
    let st := backupOnOpenM env.now env.nowStr st
    if keysExt.isSuffixOf st.walletFile then
      match importLegacyM pw env.legacyOpenOk env.legacyOutcome st with
      | (false, st) => st
      | (true, st) => openLoadPhase env st
    else openLoadPhase env st
  else
    let st := { st with encrypted := false }
    if env.genThrows then { st with wallet := none } else st

/-- The `WalletAdapter::initCompleted(error)` (lines 340-346): close the file when
it is still open and emit the queued init-completed signal. -/
def initCompletedM (err : Int) (st : St) : St :=
  let st := if st.fileIsOpen then closeFileM st else st
  { st with signals := st.signals ++ [Signal.walletInitCompleted err] }

/-- The `WalletAdapter::onWalletInitCompleted(error, text)` (lines 348-375).
Success emits the balance/address/ready signals and saves when the wallet
file is missing; `WRONG_PASSWORD` emits the re-prompt signal (with the current
encrypted flag), marks the wallet encrypted and deletes the wallet object;
every other error deletes the wallet object. -/
def onWalletInitCompletedM (err : Int) (saveOpenOk saveThrows : Bool) (st : St) : St :=
  if err = 0 then
    let st := { st with signals := st.signals ++ [Signal.balancesAndAddressUpdated,
                                                  Signal.stateChanged] }
    if !fileExists st.fs st.walletFile then (saveM saveOpenOk saveThrows st).2 else st
  else if err = WRONG_PASSWORD then
    { st with signals := st.signals ++ [Signal.openWalletWithPassword st.encrypted],
              encrypted := true,
              wallet := none }
  else
    { st with wallet := none }

/-! ### Read-only getters (lines 60-82) and last-transaction notification
(lines 518-523) -/

/-- The `WalletAdapter::getAddress()` (lines 60-66). -/
def getAddressM (st : St) : Str :=
  match st.wallet with
  | none => []
  | some w => match w.address with
    | Except.ok a => a
    | Except.error _ => []

/-- The `WalletAdapter::getActualBalance()` (lines 68-74). -/
def getActualBalanceM (st : St) : Nat :=
  match st.wallet with
  | none => 0
  | some w => match w.actualBalance with
    | Except.ok b => b
    | Except.error _ => 0

/-- The `WalletAdapter::getPendingBalance()` (lines 76-82). -/
def getPendingBalanceM (st : St) : Nat :=
  match st.wallet with
  | none => 0
  | some w => match w.pendingBalance with
    | Except.ok b => b
    | Except.error _ => 0

/-- Model of `WalletAdapter::isOpen()` (lines 131-133): the wallet pointer is
not null. -/
def isOpenM (st : St) : Bool := st.wallet.isSome

/-- The `WalletAdapter::notifyAboutLastTransaction()` (lines 518-523): when the
stored id is not the sentinel, emit the transaction-created signal once and
reset the id to the sentinel. -/
def notifyAboutLastTransactionM (st : St) : St :=
  if st.lastTxId ≠ QUINT64_MAX then
    { st with signals := st.signals ++ [Signal.txCreated st.lastTxId],
              lastTxId := QUINT64_MAX }
  else st

/-! ### Concrete states used as witnesses -/

/-- A short name for string data in fixtures. -/
def str (x : String) : Str := x.data

/-- An engine wallet whose every getter throws. -/
def engThrowing : EngineWallet :=
  ⟨Except.error (), Except.error (), Except.error ()⟩

/-- An engine wallet with ordinary getter results. -/
def engOk : EngineWallet :=
  ⟨Except.ok (str "addr1"), Except.ok 7, Except.ok 3⟩

/-- A baseline adapter state over a small file system: the wallet file
`/d/w.wallet` exists, the backup directory holds two old backups. -/
def baseSt : St where
  wallet := none
  walletFile := str "/d/w.wallet"
  dataDir := str "/x"
  encrypted := false
  isBackupInProgress := false
  lastTxId := 5
  fileIsOpen := false
  lockDepth := 0
  fs := [⟨str "/d/w.wallet", 50, 77⟩,
         ⟨str "/x/backup/w.01-01-2020-10-00.wallet", 10, 1⟩,
         ⟨str "/x/backup/w.01-01-2020-11-00.wallet", 11, 2⟩]
  dirs := [str "/x", str "/x/backup"]
  signals := []
  events := []

/-- The `baseSt` with a throwing engine wallet attached. -/
def stWithThrowingWallet : St := { baseSt with wallet := some engThrowing }

/-- The `baseSt` with a pending temporary save file. -/
def stWithTemp : St :=
  { baseSt with fs := baseSt.fs ++ [⟨str "/d/w.wallet.temp", 60, 99⟩] }

/-- A legacy `.keys` wallet state with an attached wallet object. -/
def stLegacy : St :=
  { baseSt with walletFile := str "/d/w.keys",
                wallet := some engOk,
                fs := [⟨str "/d/w.keys", 50, 77⟩] }

/-- The `stWithTemp` during a backup-copy save. -/
def stBackupFlag : St := { stWithTemp with isBackupInProgress := true }

/-- The `baseSt` without the backup directory and without old backups. -/
def stNoBackupDir : St :=
  { baseSt with dirs := [str "/x"], fs := [⟨str "/d/w.wallet", 50, 77⟩] }

/-- A legacy-format wallet state for the C7 counterexample, with no wallet
object attached. -/
def stKeys : St :=
  { baseSt with walletFile := str "/d/wallet.keys",
                fs := [⟨str "/d/wallet.keys", 50, 77⟩] }

/-- The `baseSt` with twelve pre-existing backups of the wallet. -/
def stMany : St :=
  { baseSt with fs :=
      [⟨str "/d/w.wallet", 50, 77⟩,
       ⟨str "/x/backup/w.b01.wallet", 1, 1⟩,
       ⟨str "/x/backup/w.b02.wallet", 2, 2⟩,
       ⟨str "/x/backup/w.b03.wallet", 3, 3⟩,
       ⟨str "/x/backup/w.b04.wallet", 4, 4⟩,
       ⟨str "/x/backup/w.b05.wallet", 5, 5⟩,
       ⟨str "/x/backup/w.b06.wallet", 6, 6⟩,
       ⟨str "/x/backup/w.b07.wallet", 7, 7⟩,
       ⟨str "/x/backup/w.b08.wallet", 8, 8⟩,
       ⟨str "/x/backup/w.b09.wallet", 9, 9⟩,
       ⟨str "/x/backup/w.b10.wallet", 10, 10⟩,
       ⟨str "/x/backup/w.b11.wallet", 11, 11⟩,
       ⟨str "/x/backup/w.b12.wallet", 12, 12⟩] }

/-- A standard environment for one `open` run: everything succeeds. -/
def envStd : OpenEnv where
  eng := engOk
  openOk := true
  loadThrows := false
  genThrows := false
  legacyOpenOk := true
  legacyOutcome := LegacyOutcome.success
  now := 100
  nowStr := str "01-01-2020-12-00"

/-! ## General lemmas about the file-system model -/

theorem fileExists_iff {fs : List BFile} {p : Str} :
    fileExists fs p = true ↔ ∃ f ∈ fs, f.path = p := by
  simp [fileExists, List.any_eq_true]

theorem fileExists_of_findFile {fs : List BFile} {p : Str} {f : BFile}
    (h : findFile fs p = some f) : fileExists fs p = true := by
  have hm := List.mem_of_find?_eq_some h
  have hp := List.find?_some h
  exact fileExists_iff.mpr ⟨f, hm, by simpa using hp⟩

theorem find?_filter_of_imp {α : Type} (l : List α) (p q : α → Bool)
    (h : ∀ a, p a = true → q a = true) : (l.filter q).find? p = l.find? p := by
  induction l with
  | nil => rfl
  | cons a t ih =>
    by_cases hq : q a = true
    · rw [List.filter_cons_of_pos hq]
      by_cases hp : p a = true
      · rw [List.find?_cons_of_pos _ hp, List.find?_cons_of_pos _ hp]
      · rw [List.find?_cons_of_neg _ (by simpa using hp),
          List.find?_cons_of_neg _ (by simpa using hp), ih]
    · have hp : p a = false := by
        cases hpa : p a with
        | false => rfl
        | true => exact absurd (h a hpa) hq
      rw [List.filter_cons_of_neg (by simpa using hq),
        List.find?_cons_of_neg _ (by simp [hp]), ih]

theorem findFile_removeFileFS {fs : List BFile} {p q : Str} (h : p ≠ q) :
    findFile (removeFileFS fs q) p = findFile fs p := by
  unfold findFile removeFileFS
  refine find?_filter_of_imp fs _ _ ?_
  intro a ha
  have : a.path = p := by simpa using ha
  simp [this, h]

theorem fileExists_removeFileFS_self (fs : List BFile) (p : Str) :
    fileExists (removeFileFS fs p) p = false := by
  unfold fileExists removeFileFS
  simp only [List.any_eq_false]
  intro f hf
  have := (List.mem_filter.mp hf).2
  simpa using this

theorem findFile_append_left {fs l : List BFile} {p : Str} {f : BFile}
    (h : findFile fs p = some f) : findFile (fs ++ l) p = some f := by
  unfold findFile at h ⊢
  rw [List.find?_append, h]
  rfl

theorem find?_map_rename {l : List BFile} {old new : Str} {f : BFile}
    (hf : l.find? (fun x => x.path = old) = some f)
    (hnew : ∀ a ∈ l, a.path ≠ new) :
    (l.map (fun x => if x.path = old then { x with path := new } else x)).find?
        (fun x => x.path = new) = some { f with path := new } := by
  induction l with
  | nil => simp at hf
  | cons a t ih =>
    by_cases ha : a.path = old
    · rw [List.find?_cons_of_pos _ (by simpa using ha)] at hf
      cases hf
      simp only [List.map_cons, if_pos ha]
      rw [List.find?_cons_of_pos _ (by simp)]
    · rw [List.find?_cons_of_neg _ (by simpa using ha)] at hf
      have hanew : a.path ≠ new := hnew a (by simp)
      simp only [List.map_cons, if_neg ha]
      rw [List.find?_cons_of_neg _ (by simpa using hanew)]
      exact ih hf (fun b hb => hnew b (by simp [hb]))

theorem fileExists_map_rename_ne {l : List BFile} {old new : Str} (h : old ≠ new) :
    fileExists (l.map (fun x => if x.path = old then { x with path := new } else x))
        old = false := by
  unfold fileExists
  simp only [List.any_eq_false]
  intro a ha
  obtain ⟨b, hb, rfl⟩ := List.mem_map.mp ha
  by_cases hbo : b.path = old
  · simp only [if_pos hbo]
    simpa using fun hh => h hh.symm
  · simp only [if_neg hbo]
    simpa using hbo

theorem renameFileOp_promotes {fs : List BFile} {old new : Str} {f : BFile}
    (hne : old ≠ new) (hold : findFile fs old = some f) :
    findFile (renameFileOp fs old new) new = some ⟨new, f.mtime, f.content⟩ ∧
    fileExists (renameFileOp fs old new) old = false := by
  have h1 : findFile (removeFileFS fs new) old = some f := by
    rw [findFile_removeFileFS hne]; exact hold
  have h2 : fileExists (removeFileFS fs new) old = true := fileExists_of_findFile h1
  have h3 : fileExists (removeFileFS fs new) new = false :=
    fileExists_removeFileFS_self fs new
  have hcond : (fileExists (removeFileFS fs new) old
      && !fileExists (removeFileFS fs new) new) = true := by rw [h2, h3]; rfl
  unfold renameFileOp renameFS
  rw [if_pos hcond]
  have hnewmem : ∀ a ∈ removeFileFS fs new, a.path ≠ new := by
    intro a ha
    have := (List.mem_filter.mp ha).2
    simpa using this
  exact ⟨find?_map_rename h1 hnewmem, fileExists_map_rename_ne hne⟩

theorem append_tempExt_ne (s : Str) : s ++ tempExt ≠ s := by
  intro h
  have := congrArg List.length h
  simp [tempExt] at this

/-! ## C2: backup-copy saves never promote, normal saves always promote -/

/-- C2: on save completion without error, a backup-copy save
(`m_isBackupInProgress` true) leaves the file system unchanged — in
particular it never replaces the primary wallet file — while a normal save
promotes `<walletFile>.temp` to the primary wallet path by remove-then-rename:
afterwards the primary path holds the temporary file's content and the
temporary file is gone. -/
theorem saveCompleted_backup_vs_promote (st : St) (f : BFile) :
    (st.isBackupInProgress = true → (saveCompletedM false st).fs = st.fs) ∧
    (st.isBackupInProgress = false →
      findFile st.fs (st.walletFile ++ tempExt) = some f →
      findFile (saveCompletedM false st).fs st.walletFile
          = some ⟨st.walletFile, f.mtime, f.content⟩ ∧
      fileExists (saveCompletedM false st).fs (st.walletFile ++ tempExt) = false) := by
  constructor
  · intro h
    simp [saveCompletedM, h, closeFileM, unlockM]
  · intro h hf
    have hr := renameFileOp_promotes (append_tempExt_ne st.walletFile) hf
    simpa [saveCompletedM, h, closeFileM, unlockM] using hr

/-- Witness for C2: a backup-copy completion leaves the concrete file system
unchanged; a normal completion promotes the concrete `.temp` file. -/
theorem saveCompleted_backup_vs_promote_witness :
    (saveCompletedM false stBackupFlag).fs = stBackupFlag.fs ∧
    findFile (saveCompletedM false stWithTemp).fs stWithTemp.walletFile
        = some ⟨stWithTemp.walletFile, 60, 99⟩ ∧
    fileExists (saveCompletedM false stWithTemp).fs
        (stWithTemp.walletFile ++ tempExt) = false := by
  refine ⟨(saveCompleted_backup_vs_promote stBackupFlag ⟨[], 0, 0⟩).1 rfl, ?_, ?_⟩
  · exact ((saveCompleted_backup_vs_promote stWithTemp
      ⟨str "/d/w.wallet.temp", 60, 99⟩).2 rfl (by decide)).1
  · exact ((saveCompleted_backup_vs_promote stWithTemp
      ⟨str "/d/w.wallet.temp", 60, 99⟩).2 rfl (by decide)).2

/-! ## C8: a missing backup directory is created -/

/-- C8: when the backup directory does not exist, `backupOnOpen` creates it
and the copy still proceeds: after the copy phase the timestamped destination
exists, and the directory is present in the final state. -/
theorem backupOnOpen_creates_missing_dir (st : St) (now : Nat) (nowStr : Str) (f : BFile)
    (hmiss : ¬ backupDirOf st.dataDir ∈ st.dirs)
    (hsrc : findFile st.fs st.walletFile = some f)
    (hdest : isInDir (backupDestPath st.walletFile st.dataDir nowStr)
        (backupDirOf st.dataDir) = true)
    (hnew : fileExists st.fs (backupDestPath st.walletFile st.dataDir nowStr) = false) :
    backupDirOf st.dataDir ∈ (backupOnOpenM now nowStr st).dirs ∧
    fileExists (copyPhase now nowStr st).fs
        (backupDestPath st.walletFile st.dataDir nowStr) = true := by
  have hcopy : (copyPhase now nowStr st).fs
      = st.fs ++ [⟨backupDestPath st.walletFile st.dataDir nowStr, now, f.content⟩] := by
    simp [copyPhase, copyFileFS, if_neg hmiss, hsrc, hnew, hdest, List.any_cons]
  constructor
  · simp [backupOnOpenM, retentionPhase, copyPhase, if_neg hmiss]
  · rw [hcopy]
    simp [fileExists]

/-- Witness for C8 at a concrete state whose backup directory is missing. -/
theorem backupOnOpen_creates_missing_dir_witness :
    backupDirOf stNoBackupDir.dataDir
        ∈ (backupOnOpenM 100 (str "01-01-2020-12-00") stNoBackupDir).dirs ∧
    fileExists (copyPhase 100 (str "01-01-2020-12-00") stNoBackupDir).fs
        (backupDestPath stNoBackupDir.walletFile stNoBackupDir.dataDir
          (str "01-01-2020-12-00")) = true :=
  backupOnOpen_creates_missing_dir stNoBackupDir 100 (str "01-01-2020-12-00")
    ⟨str "/d/w.wallet", 50, 77⟩ (by decide) (by decide) (by decide) (by decide)

/-! ## C4: failure handling of open and legacy import -/

/-- Counterexample to C4 as stated: at a concrete legacy-import call failing
with `WRONG_PASSWORD`, the in-memory wallet object is NOT preserved — the
adapter had a wallet object before the call and ends with none — even though
the credential re-entry signal is emitted. -/
theorem importLegacy_wrong_password_tears_down :
    stLegacy.wallet ≠ none ∧
    (importLegacyM (str "pw") true (LegacyOutcome.sysErr WRONG_PASSWORD) stLegacy).2.wallet
        = none ∧
    Signal.openWalletWithPassword true
        ∈ (importLegacyM (str "pw") true
            (LegacyOutcome.sysErr WRONG_PASSWORD) stLegacy).2.signals := by
  refine ⟨by decide, by decide, by decide⟩

/-- C4 amended: every open or legacy-import failure — including the
`WRONG_PASSWORD` case — releases the file handle and tears the in-memory
wallet object down to null; the `WRONG_PASSWORD` case differs only in that,
before the teardown, it marks the wallet encrypted and requests credential
re-entry via the re-prompt signal. -/
theorem open_failures_teardown (pw : Str) (openOk : Bool) (code : Int) (st : St) :
    ((importLegacyM pw openOk (LegacyOutcome.sysErr code) st).1 = false ∧
     (importLegacyM pw openOk (LegacyOutcome.sysErr code) st).2.wallet = none ∧
     (importLegacyM pw openOk (LegacyOutcome.sysErr code) st).2.fileIsOpen = false ∧
     (importLegacyM pw openOk (LegacyOutcome.sysErr code) st).2.lockDepth = st.lockDepth ∧
     (code = WRONG_PASSWORD → openOk = true →
       (importLegacyM pw openOk (LegacyOutcome.sysErr code) st).2.encrypted = true ∧
       Signal.openWalletWithPassword (!pw.isEmpty)
           ∈ (importLegacyM pw openOk (LegacyOutcome.sysErr code) st).2.signals)) ∧
    (∀ saveOk saveThrows : Bool, code ≠ 0 →
      (onWalletInitCompletedM code saveOk saveThrows st).wallet = none ∧
      (code = WRONG_PASSWORD →
        Signal.openWalletWithPassword st.encrypted
            ∈ (onWalletInitCompletedM code saveOk saveThrows st).signals)) := by
  constructor
  · by_cases hc : code = WRONG_PASSWORD <;> cases openOk <;>
      simp [importLegacyM, openFileM, lockM, unlockM, closeFileM, hc]
  · intro saveOk saveThrows h0
    by_cases hc : code = WRONG_PASSWORD
    · subst hc
      simp [onWalletInitCompletedM, h0]
    · simp [onWalletInitCompletedM, hc, h0]

/-- Witness for C4 (amended) at concrete inputs. -/
theorem open_failures_teardown_witness :
    ((importLegacyM (str "pw") true (LegacyOutcome.sysErr WRONG_PASSWORD) stLegacy).2.encrypted
        = true ∧
     Signal.openWalletWithPassword (!(str "pw").isEmpty)
        ∈ (importLegacyM (str "pw") true
            (LegacyOutcome.sysErr WRONG_PASSWORD) stLegacy).2.signals) ∧
    (onWalletInitCompletedM WRONG_PASSWORD true false stLegacy).wallet = none := by
  refine ⟨((open_failures_teardown (str "pw") true WRONG_PASSWORD stLegacy).1.2.2.2.2
    rfl rfl), ?_⟩
  exact (((open_failures_teardown (str "pw") true WRONG_PASSWORD stLegacy).2
    true false (by decide)).1)

/-! ## C6: wrong password on open of an existing wallet -/

theorem initCompletedM_fs (err : Int) (st : St) : (initCompletedM err st).fs = st.fs := by
  simp only [initCompletedM, closeFileM, unlockM]
  split <;> rfl

theorem initCompletedM_encrypted (err : Int) (st : St) :
    (initCompletedM err st).encrypted = st.encrypted := by
  simp only [initCompletedM, closeFileM, unlockM]
  split <;> rfl

/-- C6: when the open of a pre-existing wallet file completes with
`WRONG_PASSWORD`, the adapter ends with no open wallet (`m_wallet = nullptr`,
so `isOpen` is false), the re-prompt signal `openWalletWithPasswordSignal` is
emitted, and the file system — in particular any backup file created during
that open — is exactly what it was right after `open` returned: nothing is
deleted. -/
theorem open_wrong_password_stays_closed (pw : Str) (env : OpenEnv) (st : St)
    (saveOk saveThrows : Bool)
    (_hex : fileExists st.fs st.walletFile = true) :
    (isOpenM (onWalletInitCompletedM WRONG_PASSWORD saveOk saveThrows
        (initCompletedM WRONG_PASSWORD (openWalletM pw env st))) = false) ∧
    (Signal.openWalletWithPassword (openWalletM pw env st).encrypted
        ∈ (onWalletInitCompletedM WRONG_PASSWORD saveOk saveThrows
            (initCompletedM WRONG_PASSWORD (openWalletM pw env st))).signals) ∧
    ((onWalletInitCompletedM WRONG_PASSWORD saveOk saveThrows
        (initCompletedM WRONG_PASSWORD (openWalletM pw env st))).fs
        = (openWalletM pw env st).fs) := by
  refine ⟨?_, ?_, ?_⟩
  · simp [isOpenM, onWalletInitCompletedM, WRONG_PASSWORD]
  · simp [onWalletInitCompletedM, WRONG_PASSWORD, initCompletedM_encrypted]
  · simp [onWalletInitCompletedM, WRONG_PASSWORD, initCompletedM_fs]

/-- Witness for C6 at a concrete pre-existing wallet state. -/
theorem open_wrong_password_stays_closed_witness :
    (isOpenM (onWalletInitCompletedM WRONG_PASSWORD true false
        (initCompletedM WRONG_PASSWORD (openWalletM (str "pw") envStd baseSt)))
        = false) ∧
    (Signal.openWalletWithPassword (openWalletM (str "pw") envStd baseSt).encrypted
        ∈ (onWalletInitCompletedM WRONG_PASSWORD true false
            (initCompletedM WRONG_PASSWORD (openWalletM (str "pw") envStd baseSt))).signals) ∧
    ((onWalletInitCompletedM WRONG_PASSWORD true false
        (initCompletedM WRONG_PASSWORD (openWalletM (str "pw") envStd baseSt))).fs
        = (openWalletM (str "pw") envStd baseSt).fs) :=
  open_wrong_password_stays_closed (str "pw") envStd baseSt true false (by decide)

/-! ## String lemmas about the timestamped destination path -/

theorem lastOccFrom_eq_some (s pat : Str) (k : Nat)
    (hk : pat.isPrefixOf (s.drop k) = true)
    (habove : ∀ i, k < i → pat.isPrefixOf (s.drop i) = false) :
    ∀ n, k ≤ n → lastOccFrom s pat n = some k := by
  intro n
  induction n with
  | zero =>
    intro hn
    have hk0 : k = 0 := Nat.le_zero.mp hn
    subst hk0
    simp only [lastOccFrom]
    rw [if_pos (by simpa using hk)]
  | succ m ih =>
    intro hn
    by_cases hkm : k = m + 1
    · subst hkm
      simp only [lastOccFrom]
      rw [if_pos hk]
    · have hle : k ≤ m := Nat.lt_succ_iff.mp (Nat.lt_of_le_of_ne hn hkm)
      have hf := habove (m + 1) (Nat.lt_succ_of_le hle)
      simp only [lastOccFrom]
      rw [if_neg (by simp [hf]), ih hle]

/-- When `pat` is a (nonempty) suffix of the string, `lastIndexOf` finds
exactly the suffix occurrence. -/
theorem qlastIndexOf_suffix (t pat : Str) (hp : pat ≠ []) :
    qlastIndexOf (t ++ pat) pat = some t.length := by
  have hp0 : 0 < pat.length := List.length_pos.mpr hp
  apply lastOccFrom_eq_some
  · rw [List.drop_left]
    simp
  · intro i hi
    cases hcon : pat.isPrefixOf ((t ++ pat).drop i) with
    | false => rfl
    | true =>
      exfalso
      have hpre := (List.isPrefixOf_iff_prefix).mp hcon
      have hlen := hpre.length_le
      rw [List.length_drop, List.length_append] at hlen
      omega
  · simp

/-- For a wallet file whose name ends in `".wallet"`, the computed backup
destination is `<backupDir>/<stem>.<nowStr>.wallet`. -/
theorem backupDestPath_wallet (walletFile dataDir nowStr stem : Str)
    (hfn : fileNameOf walletFile = stem ++ walletExt) :
    backupDestPath walletFile dataDir nowStr
      = backupDirOf dataDir ++ '/' :: stem ++ '.' :: nowStr ++ walletExt := by
  have hd0 : backupDirOf dataDir ++ '/' :: fileNameOf walletFile
      = (backupDirOf dataDir ++ '/' :: stem) ++ walletExt := by
    rw [hfn]; simp
  simp only [backupDestPath]
  rw [hd0, qlastIndexOf_suffix _ _ (by decide)]
  simp only [qreplace]
  rw [if_pos (by simp)]
  rw [List.take_left]
  have hdrop : ((backupDirOf dataDir ++ '/' :: stem) ++ walletExt).drop
      ((backupDirOf dataDir ++ '/' :: stem).length + 7) = [] := by
    apply List.drop_eq_nil_of_le
    simp [walletExt]
    omega
  rw [hdrop]
  simp

/-! ## Membership lemmas for the backup phases -/

theorem mem_of_mem_removeFileFS {fs : List BFile} {p : Str} {g : BFile}
    (h : g ∈ removeFileFS fs p) : g ∈ fs :=
  (List.mem_filter.mp h).1

theorem not_dest_mem_removeFileFS {fs : List BFile} {p : Str} {g : BFile}
    (h : g ∈ removeFileFS fs p) : g.path ≠ p := by
  have := (List.mem_filter.mp h).2
  simpa using this

theorem findFile_copyFileFS {fs : List BFile} {dirs : List Str} {src dst : Str}
    {t : Nat} {p : Str} {f : BFile} (h : findFile fs p = some f) :
    findFile (copyFileFS fs dirs src dst t) p = some f := by
  unfold copyFileFS
  cases hsrc : findFile fs src with
  | none => exact h
  | some g =>
    cases h1 : fileExists fs dst with
    | true => simpa [h1] using h
    | false =>
      cases h2 : dirs.any (fun d => isInDir dst d) with
      | false => simpa [h1, h2] using h
      | true =>
        simp only [h1, h2, Bool.false_eq_true, if_false, if_true]
        exact findFile_append_left h

theorem mem_copyFileFS {fs : List BFile} {dirs : List Str} {src dst : Str}
    {t : Nat} {g : BFile} (h : g ∈ copyFileFS fs dirs src dst t) :
    g ∈ fs ∨ ∃ f, findFile fs src = some f ∧ fileExists fs dst = false ∧
      g = ⟨dst, t, f.content⟩ := by
  unfold copyFileFS at h
  cases hsrc : findFile fs src with
  | none => rw [hsrc] at h; exact Or.inl h
  | some f =>
    rw [hsrc] at h
    cases h1 : fileExists fs dst with
    | true => rw [h1] at h; simp at h; exact Or.inl h
    | false =>
      rw [h1] at h
      cases h2 : dirs.any (fun d => isInDir dst d) with
      | false => simp [h2] at h; exact Or.inl h
      | true =>
        simp only [h2, Bool.false_eq_true, if_false, if_true] at h
        rcases List.mem_append.mp h with hg | hg
        · exact Or.inl hg
        · exact Or.inr ⟨f, rfl, rfl, by simpa using hg⟩

theorem copyPhase_walletFile (now : Nat) (nowStr : Str) (st : St) :
    (copyPhase now nowStr st).walletFile = st.walletFile := by
  by_cases h : backupDirOf st.dataDir ∈ st.dirs <;> simp [copyPhase, h]

theorem copyPhase_dataDir (now : Nat) (nowStr : Str) (st : St) :
    (copyPhase now nowStr st).dataDir = st.dataDir := by
  by_cases h : backupDirOf st.dataDir ∈ st.dirs <;> simp [copyPhase, h]

theorem backupOnOpen_walletFile (now : Nat) (nowStr : Str) (st : St) :
    (backupOnOpenM now nowStr st).walletFile = st.walletFile := by
  unfold backupOnOpenM retentionPhase
  rw [copyPhase_walletFile]

theorem backupOnOpen_dataDir (now : Nat) (nowStr : Str) (st : St) :
    (backupOnOpenM now nowStr st).dataDir = st.dataDir := by
  unfold backupOnOpenM retentionPhase
  rw [copyPhase_dataDir]

theorem mem_retentionPhase {st : St} {g : BFile} (h : g ∈ (retentionPhase st).fs) :
    g ∈ st.fs :=
  (List.mem_filter.mp h).1

/-- Every path the retention scan deletes belongs to a file matching the scan
filter, hence lies inside the backup directory. -/
theorem retention_deleted_inDir (st : St) (pth : Str)
    (h : pth ∈ ((List.insertionSort newestFirst
        (st.fs.filter (matchesScan st.walletFile st.dataDir))).drop 10).map BFile.path) :
    isInDir pth (backupDirOf st.dataDir) = true := by
  obtain ⟨g, hg, rfl⟩ := List.mem_map.mp h
  have hg1 : g ∈ List.insertionSort newestFirst
      (st.fs.filter (matchesScan st.walletFile st.dataDir)) := List.mem_of_mem_drop hg
  have hg2 : g ∈ st.fs.filter (matchesScan st.walletFile st.dataDir) :=
    (List.perm_insertionSort newestFirst _).mem_iff.mp hg1
  have hm := (List.mem_filter.mp hg2).2
  have := (Bool.and_eq_true _ _).mp (by simpa [matchesScan] using hm)
  exact this.1

theorem findFile_retentionPhase {st : St} {p : Str} {f : BFile}
    (h : findFile st.fs p = some f)
    (hout : isInDir p (backupDirOf st.dataDir) = false) :
    findFile (retentionPhase st).fs p = some f := by
  unfold retentionPhase findFile
  rw [find?_filter_of_imp]
  · exact h
  · intro a ha
    have hap : a.path = p := by simpa using ha
    simp only [decide_eq_true_eq]
    intro hmem
    rw [hap] at hmem
    rw [retention_deleted_inDir st p hmem] at hout
    exact Bool.true_eq_false.mp hout

/-- The wallet file itself survives `backupOnOpen` untouched whenever it is
not inside the backup directory and differs from the copy destination. -/
theorem findFile_backupOnOpen_src (st : St) (now : Nat) (nowStr : Str) (f : BFile)
    (hsrc : findFile st.fs st.walletFile = some f)
    (hin : isInDir st.walletFile (backupDirOf st.dataDir) = false)
    (hne : st.walletFile ≠ backupDestPath st.walletFile st.dataDir nowStr) :
    findFile (backupOnOpenM now nowStr st).fs st.walletFile = some f := by
  unfold backupOnOpenM
  have h1 : findFile (copyPhase now nowStr st).fs st.walletFile = some f := by
    by_cases hd : backupDirOf st.dataDir ∈ st.dirs <;>
      by_cases hfe : fileExists st.fs
          (backupDestPath st.walletFile st.dataDir nowStr) = true <;>
        simp only [copyPhase, hd, hfe, if_true, if_false, ite_true, ite_false,
          Bool.false_eq_true] <;>
        exact findFile_copyFileFS (by
          first
          | (rw [findFile_removeFileFS hne]; exact hsrc)
          | exact hsrc)
  apply findFile_retentionPhase h1
  rw [copyPhase_dataDir]
  exact hin

theorem mem_copyFileFS_of_sub {fs0 fs1 : List BFile} {dirs2 : List Str}
    {src dst : Str} {t : Nat} {g : BFile}
    (h : g ∈ copyFileFS fs1 dirs2 src dst t) (hsub : ∀ x ∈ fs1, x ∈ fs0) :
    g ∈ fs0 ∨ ∃ f ∈ fs0, f.path = src ∧ g = ⟨dst, t, f.content⟩ := by
  rcases mem_copyFileFS h with hg | ⟨f, hf, _, rfl⟩
  · exact Or.inl (hsub _ hg)
  · refine Or.inr ⟨f, hsub _ (List.mem_of_find?_eq_some hf), ?_, rfl⟩
    have := List.find?_some hf
    simpa using this

theorem mem_copyPhase {st : St} {now : Nat} {nowStr : Str} {g : BFile}
    (h : g ∈ (copyPhase now nowStr st).fs) :
    g ∈ st.fs ∨ ∃ f ∈ st.fs, f.path = st.walletFile ∧
      g = ⟨backupDestPath st.walletFile st.dataDir nowStr, now, f.content⟩ := by
  by_cases hd : backupDirOf st.dataDir ∈ st.dirs <;>
    by_cases hfe : fileExists st.fs
        (backupDestPath st.walletFile st.dataDir nowStr) = true <;>
      simp only [copyPhase, hd, hfe, if_true, if_false, ite_true, ite_false,
        Bool.false_eq_true] at h <;>
      exact mem_copyFileFS_of_sub h (by
        first
        | exact fun x hx => mem_of_mem_removeFileFS hx
        | exact fun x hx => hx)

/-- Every file present after `backupOnOpen` that was not present before is
the freshly written backup: it sits at the computed destination path, carries
the current time, and holds the wallet file's content. -/
theorem mem_backupOnOpen {st : St} {now : Nat} {nowStr : Str} {g : BFile}
    (h : g ∈ (backupOnOpenM now nowStr st).fs) :
    g ∈ st.fs ∨ ∃ f ∈ st.fs, f.path = st.walletFile ∧
      g = ⟨backupDestPath st.walletFile st.dataDir nowStr, now, f.content⟩ :=
  mem_copyPhase (mem_retentionPhase h)

/-! ## C7: shape of the backup destination -/

/-- Counterexample to C7 as stated: opening the legacy wallet
`/d/wallet.keys` writes its backup to `/x/backup/wallet.keys` — the original
filename with no timestamp inserted — because the timestamp substitution only
rewrites a `".wallet"` suffix.  The produced name does not even contain the
timestamp, so it is not of the form `<name>.<dd-MM-yyyy-HH-mm>.<ext>`. -/
theorem backup_keys_no_timestamp :
    (⟨str "/x/backup/wallet.keys", 100, 77⟩ : BFile)
        ∈ (backupOnOpenM 100 (str "01-01-2020-12-00") stKeys).fs ∧
    containsSub (str "/x/backup/wallet.keys") (str "01-01-2020-12-00") = false := by
  refine ⟨by decide, by decide⟩

/-- C7 amended: every backup file that `backupOnOpen` creates for a wallet
file whose name ends in `".wallet"` is written under `<dataDir>/backup/` with
the name `<stem>.<nowStr>.wallet` and the primary file's content.  For other
wallet file paths the backup's name need not have this timestamped form: the
timestamp is spliced in at the last `".wallet"` occurrence of the destination
string, if any, so e.g. `/d/wallet.keys` is copied under its unchanged
name. -/
theorem backup_written_path_form (st : St) (now : Nat) (nowStr stem : Str) (g : BFile)
    (hfn : fileNameOf st.walletFile = stem ++ walletExt)
    (hg : g ∈ (backupOnOpenM now nowStr st).fs) (hnew : ¬ g ∈ st.fs) :
    ∃ f ∈ st.fs, f.path = st.walletFile ∧
      g = ⟨backupDirOf st.dataDir ++ '/' :: stem ++ '.' :: nowStr ++ walletExt,
        now, f.content⟩ := by
  rcases mem_backupOnOpen hg with h | ⟨f, hf, hp, rfl⟩
  · exact absurd h hnew
  · exact ⟨f, hf, hp, by rw [backupDestPath_wallet _ _ _ _ hfn]⟩

/-- Witness for C7 (amended): the concrete backup created when opening
`/d/w.wallet` is `/x/backup/w.01-01-2020-12-00.wallet`. -/
theorem backup_written_path_form_witness :
    ∃ f ∈ baseSt.fs, f.path = baseSt.walletFile ∧
      (⟨str "/x/backup/w.01-01-2020-12-00.wallet", 100, 77⟩ : BFile)
        = ⟨backupDirOf baseSt.dataDir ++ '/' :: str "w" ++ '.' :: str "01-01-2020-12-00"
            ++ walletExt, 100, f.content⟩ :=
  backup_written_path_form baseSt 100 (str "01-01-2020-12-00") (str "w")
    ⟨str "/x/backup/w.01-01-2020-12-00.wallet", 100, 77⟩ (by decide) (by decide) (by decide)

/-! ## C5: same-minute collisions overwrite -/

theorem filter_dest_nil {fs : List BFile} {p : Str} (h : fileExists fs p = false) :
    fs.filter (fun g => g.path = p) = [] := by
  rw [List.filter_eq_nil_iff]
  intro a ha
  simp only [decide_eq_true_eq]
  intro hp
  have : fileExists fs p = true := fileExists_iff.mpr ⟨a, ha, hp⟩
  rw [h] at this
  exact Bool.false_ne_true this

theorem retentionPhase_fs_sub (x : St) : (retentionPhase x).fs.Sublist x.fs := by
  simp only [retentionPhase]
  exact List.filter_sublist _

theorem copyFileFS_dest_count {fs1 : List BFile} {dirs2 : List Str}
    {src dst : Str} {t : Nat} (hfe : fileExists fs1 dst = false) :
    ((copyFileFS fs1 dirs2 src dst t).filter (fun g => g.path = dst)).length ≤ 1 := by
  unfold copyFileFS
  cases hsrc : findFile fs1 src with
  | none => simp [filter_dest_nil hfe]
  | some f =>
    rw [hfe]
    cases h2 : dirs2.any (fun d => isInDir dst d) with
    | false => simp [h2, filter_dest_nil hfe]
    | true =>
      simp only [h2, Bool.false_eq_true, if_false, if_true]
      rw [List.filter_append, filter_dest_nil hfe]
      simp

theorem copyFileFS_dest_mem {fs1 : List BFile} {dirs2 : List Str}
    {src dst : Str} {t : Nat} {f g : BFile}
    (hfe : fileExists fs1 dst = false) (hsrc : findFile fs1 src = some f)
    (hg : g ∈ copyFileFS fs1 dirs2 src dst t) (hp : g.path = dst) :
    g = ⟨dst, t, f.content⟩ := by
  unfold copyFileFS at hg
  rw [hsrc, hfe] at hg
  cases h2 : dirs2.any (fun d => isInDir dst d) with
  | false =>
    rw [h2] at hg
    simp only [Bool.false_eq_true, if_false] at hg
    exact absurd (fileExists_iff.mpr ⟨g, hg, hp⟩) (by simp [hfe])
  | true =>
    rw [h2] at hg
    simp only [Bool.false_eq_true, if_false, if_true] at hg
    rcases List.mem_append.mp hg with hg1 | hg1
    · exact absurd (fileExists_iff.mpr ⟨g, hg1, hp⟩) (by simp [hfe])
    · simpa using hg1

/-- After the copy phase, the parameters of any file at the destination path:
it was freshly copied at the current time from the wallet file. -/
theorem copyPhase_dest_mem {st : St} {now : Nat} {nowStr : Str} {f g : BFile}
    (hsrc : findFile st.fs st.walletFile = some f)
    (hne : st.walletFile ≠ backupDestPath st.walletFile st.dataDir nowStr)
    (hg : g ∈ (copyPhase now nowStr st).fs)
    (hp : g.path = backupDestPath st.walletFile st.dataDir nowStr) :
    g = ⟨backupDestPath st.walletFile st.dataDir nowStr, now, f.content⟩ := by
  by_cases hd : backupDirOf st.dataDir ∈ st.dirs <;>
    by_cases hfe : fileExists st.fs
        (backupDestPath st.walletFile st.dataDir nowStr) = true <;>
      simp only [copyPhase, hd, hfe, if_true, if_false, ite_true, ite_false,
        Bool.false_eq_true] at hg
  all_goals
    first
    | exact copyFileFS_dest_mem (fileExists_removeFileFS_self _ _)
        (by rw [findFile_removeFileFS hne]; exact hsrc) hg hp
    | exact copyFileFS_dest_mem (by simpa using hfe) hsrc hg hp

theorem copyPhase_dest_count (st : St) (now : Nat) (nowStr : Str) :
    (((copyPhase now nowStr st).fs).filter
      (fun g => g.path = backupDestPath st.walletFile st.dataDir nowStr)).length ≤ 1 := by
  by_cases hd : backupDirOf st.dataDir ∈ st.dirs <;>
    by_cases hfe : fileExists st.fs
        (backupDestPath st.walletFile st.dataDir nowStr) = true <;>
      simp only [copyPhase, hd, hfe, if_true, if_false, ite_true, ite_false,
        Bool.false_eq_true]
  all_goals
    first
    | exact copyFileFS_dest_count (fileExists_removeFileFS_self _ _)
    | exact copyFileFS_dest_count (by simpa using hfe)

/-- After one full `backupOnOpen`, at most one file sits at the destination
path. -/
theorem backupOnOpen_dest_count (st : St) (now : Nat) (nowStr : Str) :
    (((backupOnOpenM now nowStr st).fs).filter
      (fun g => g.path = backupDestPath st.walletFile st.dataDir nowStr)).length ≤ 1 := by
  have hsub := (retentionPhase_fs_sub (copyPhase now nowStr st)).filter
    (fun g => decide (g.path = backupDestPath st.walletFile st.dataDir nowStr))
  exact le_trans hsub.length_le (copyPhase_dest_count st now nowStr)

/-- C5: two opens of the same wallet in the same minute leave at most one
backup file at the timestamped destination, and any file there is the
second copy — current source content at the second open's time — rather than
a duplicate or the stale first copy. -/
theorem backup_same_minute_overwrites (st : St) (now1 now2 : Nat) (nowStr : Str)
    (f : BFile)
    (hsrc : findFile st.fs st.walletFile = some f)
    (hin : isInDir st.walletFile (backupDirOf st.dataDir) = false)
    (hne : st.walletFile ≠ backupDestPath st.walletFile st.dataDir nowStr) :
    (((backupOnOpenM now2 nowStr (backupOnOpenM now1 nowStr st)).fs).filter
      (fun g => g.path = backupDestPath st.walletFile st.dataDir nowStr)).length ≤ 1 ∧
    ∀ g ∈ (backupOnOpenM now2 nowStr (backupOnOpenM now1 nowStr st)).fs,
      g.path = backupDestPath st.walletFile st.dataDir nowStr →
      g = ⟨backupDestPath st.walletFile st.dataDir nowStr, now2, f.content⟩ := by
  have hwf := backupOnOpen_walletFile now1 nowStr st
  have hdd := backupOnOpen_dataDir now1 nowStr st
  have hpres : findFile (backupOnOpenM now1 nowStr st).fs
      ((backupOnOpenM now1 nowStr st).walletFile) = some f := by
    rw [hwf]
    exact findFile_backupOnOpen_src st now1 nowStr f hsrc hin hne
  have hne1 : (backupOnOpenM now1 nowStr st).walletFile
      ≠ backupDestPath (backupOnOpenM now1 nowStr st).walletFile
          (backupOnOpenM now1 nowStr st).dataDir nowStr := by
    rw [hwf, hdd]; exact hne
  constructor
  · have := backupOnOpen_dest_count (backupOnOpenM now1 nowStr st) now2 nowStr
    rw [hwf, hdd] at this
    exact this
  · intro g hg hp
    have := copyPhase_dest_mem hpres hne1 (mem_retentionPhase hg) (by rw [hwf, hdd]; exact hp)
    rw [hwf, hdd] at this
    exact this

/-- Witness for C5 at a concrete state: `baseSt` opened twice in the same
minute. -/
theorem backup_same_minute_overwrites_witness :
    (((backupOnOpenM 101 (str "01-01-2020-12-00")
        (backupOnOpenM 100 (str "01-01-2020-12-00") baseSt)).fs).filter
      (fun g => g.path
        = backupDestPath baseSt.walletFile baseSt.dataDir (str "01-01-2020-12-00"))).length
      ≤ 1 :=
  (backup_same_minute_overwrites baseSt 100 101 (str "01-01-2020-12-00")
    ⟨str "/d/w.wallet", 50, 77⟩ (by decide) (by decide) (by decide)).1

/-! ## C1: bounded retention, oldest deleted first -/

theorem nodup_paths_removeFileFS {fs : List BFile} {p : Str}
    (h : (fs.map BFile.path).Nodup) : ((removeFileFS fs p).map BFile.path).Nodup :=
  ((List.filter_sublist fs).map BFile.path).nodup h

theorem nodup_paths_copyFileFS (fs : List BFile) (dirs2 : List Str)
    (src dst : Str) (t : Nat) (h : (fs.map BFile.path).Nodup) :
    ((copyFileFS fs dirs2 src dst t).map BFile.path).Nodup := by
  unfold copyFileFS
  cases hsrc : findFile fs src with
  | none => exact h
  | some f =>
    by_cases hfe : fileExists fs dst = true
    · simpa [hfe] using h
    · by_cases h2 : dirs2.any (fun d => isInDir dst d) = true
      · simp only [hfe, h2, if_false, if_true, Bool.false_eq_true]
        rw [List.map_append]
        refine h.append (by simp) ?_
        intro q hq1 hq2
        have hqd : q = dst := by simpa using hq2
        subst hqd
        obtain ⟨b, hbm, hbp⟩ := List.mem_map.mp hq1
        exact hfe (fileExists_iff.mpr ⟨b, hbm, hbp⟩)
      · simpa [hfe, h2] using h

theorem nodup_paths_copyPhase (st : St) (now : Nat) (nowStr : Str)
    (h : (st.fs.map BFile.path).Nodup) :
    (((copyPhase now nowStr st).fs).map BFile.path).Nodup := by
  by_cases hd : backupDirOf st.dataDir ∈ st.dirs <;>
    by_cases hfe : fileExists st.fs
        (backupDestPath st.walletFile st.dataDir nowStr) = true <;>
      simp only [copyPhase, hd, hfe, if_true, if_false, ite_true, ite_false,
        Bool.false_eq_true] <;>
      exact nodup_paths_copyFileFS _ _ _ _ _ (by
        first
        | exact nodup_paths_removeFileFS h
        | exact h)

/-- Core of the retention invariant, stated on the state the scan runs on:
the scan keeps exactly the `min 10 n` most recent matching files, and every
matching file it deletes is at least as old as every matching file it
keeps. -/
theorem retention_main (x : St) (hnodup : (x.fs.map BFile.path).Nodup) :
    ((retentionPhase x).fs.filter (matchesScan x.walletFile x.dataDir)).length
        = min 10 ((x.fs.filter (matchesScan x.walletFile x.dataDir)).length) ∧
    (∀ fOld ∈ x.fs, matchesScan x.walletFile x.dataDir fOld = true →
      fOld ∉ (retentionPhase x).fs →
      ∀ g ∈ (retentionPhase x).fs, matchesScan x.walletFile x.dataDir g = true →
        fOld.mtime ≤ g.mtime) := by
  set M := x.fs.filter (matchesScan x.walletFile x.dataDir) with hM
  set sorted := List.insertionSort newestFirst M with hsorted_def
  set D := (sorted.drop 10).map BFile.path with hD
  have hre : (retentionPhase x).fs = x.fs.filter (fun f => ¬ f.path ∈ D) := rfl
  have hperm : sorted.Perm M := List.perm_insertionSort _ _
  have hLnd : x.fs.Nodup := hnodup.of_map _
  have hMnd : M.Nodup := hLnd.filter _
  have hsortnd : sorted.Nodup := hperm.nodup_iff.mpr hMnd
  have pathInj := List.inj_on_of_nodup_map hnodup
  have hsorted : List.Sorted newestFirst sorted := List.sorted_insertionSort _ _
  have hmemA : ∀ g ∈ x.fs, matchesScan x.walletFile x.dataDir g = true →
      (g ∈ (retentionPhase x).fs ↔ g ∈ sorted.take 10) := by
    intro g hgL hgm
    constructor
    · intro hkept
      rw [hre] at hkept
      have hnotD : ¬ g.path ∈ D := by simpa using (List.mem_filter.mp hkept).2
      have hgM : g ∈ M := List.mem_filter.mpr ⟨hgL, hgm⟩
      have hgs : g ∈ sorted := hperm.mem_iff.mpr hgM
      have hsplit : g ∈ sorted.take 10 ++ sorted.drop 10 := by
        rw [List.take_append_drop]
        exact hgs
      rcases List.mem_append.mp hsplit with h | h
      · exact h
      · exact absurd (List.mem_map_of_mem BFile.path h) hnotD
    · intro htake
      rw [hre]
      refine List.mem_filter.mpr ⟨hgL, ?_⟩
      simp only [decide_eq_true_eq]
      intro hgD
      obtain ⟨d, hd, hdp⟩ := List.mem_map.mp hgD
      have hds : d ∈ sorted := List.mem_of_mem_drop hd
      have hdM : d ∈ M := hperm.mem_iff.mp hds
      have hdL : d ∈ x.fs := (List.mem_filter.mp hdM).1
      have heq : d = g := pathInj hdL hgL hdp
      subst heq
      exact (List.disjoint_take_drop hsortnd (le_refl 10)) htake hd
  constructor
  · have KND : ((retentionPhase x).fs.filter
        (matchesScan x.walletFile x.dataDir)).Nodup := by
      rw [hre]
      exact (hLnd.filter _).filter _
    have TND : (sorted.take 10).Nodup := (List.take_sublist 10 sorted).nodup hsortnd
    have hsubK : (retentionPhase x).fs.filter (matchesScan x.walletFile x.dataDir)
        ⊆ sorted.take 10 := by
      intro a ha
      have haR := (List.mem_filter.mp ha).1
      have ham := (List.mem_filter.mp ha).2
      have haL : a ∈ x.fs := by
        rw [hre] at haR
        exact (List.mem_filter.mp haR).1
      exact (hmemA a haL ham).mp haR
    have hsubT : sorted.take 10
        ⊆ (retentionPhase x).fs.filter (matchesScan x.walletFile x.dataDir) := by
      intro b hb
      have hbs : b ∈ sorted := List.mem_of_mem_take hb
      have hbM : b ∈ M := hperm.mem_iff.mp hbs
      have hbL : b ∈ x.fs := (List.mem_filter.mp hbM).1
      have hbm : matchesScan x.walletFile x.dataDir b = true :=
        (List.mem_filter.mp hbM).2
      exact List.mem_filter.mpr ⟨(hmemA b hbL hbm).mpr hb, hbm⟩
    have hp2 := (List.subperm_of_subset KND hsubK).antisymm
      (List.subperm_of_subset TND hsubT)
    rw [hp2.length_eq, List.length_take, hperm.length_eq]
  · intro fOld hfL hfm hfnot g hgR hgm
    have hgL : g ∈ x.fs := by
      rw [hre] at hgR
      exact (List.mem_filter.mp hgR).1
    have hgtake := (hmemA g hgL hgm).mp hgR
    have hfM : fOld ∈ M := List.mem_filter.mpr ⟨hfL, hfm⟩
    have hfs : fOld ∈ sorted := hperm.mem_iff.mpr hfM
    have hfdrop : fOld ∈ sorted.drop 10 := by
      have hsplit : fOld ∈ sorted.take 10 ++ sorted.drop 10 := by
        rw [List.take_append_drop]
        exact hfs
      rcases List.mem_append.mp hsplit with h | h
      · exact absurd ((hmemA fOld hfL hfm).mpr h) hfnot
      · exact h
    exact hsorted.rel_of_mem_take_of_mem_drop hgtake hfdrop

/-- C1: after `backupOnOpen`, at most 10 files matching the wallet's name
remain in the backup directory — exactly the `min 10 n` most recent of the
`n` matching files the scan saw — and every file the scan deleted is at
least as old as every matching file that remains. -/
theorem backupOnOpen_retention_bound (st : St) (now : Nat) (nowStr : Str)
    (hnodup : (st.fs.map BFile.path).Nodup)
    (_hsrc : fileExists st.fs st.walletFile = true) :
    ((backupOnOpenM now nowStr st).fs.filter
        (matchesScan st.walletFile st.dataDir)).length ≤ 10 ∧
    ((backupOnOpenM now nowStr st).fs.filter
        (matchesScan st.walletFile st.dataDir)).length
      = min 10 (((copyPhase now nowStr st).fs.filter
          (matchesScan st.walletFile st.dataDir)).length) ∧
    (∀ fOld ∈ (copyPhase now nowStr st).fs,
      matchesScan st.walletFile st.dataDir fOld = true →
      fOld ∉ (backupOnOpenM now nowStr st).fs →
      ∀ g ∈ (backupOnOpenM now nowStr st).fs,
        matchesScan st.walletFile st.dataDir g = true → fOld.mtime ≤ g.mtime) := by
  have hmain := retention_main (copyPhase now nowStr st)
    (nodup_paths_copyPhase st now nowStr hnodup)
  rw [copyPhase_walletFile, copyPhase_dataDir] at hmain
  simp only [backupOnOpenM]
  refine ⟨?_, hmain.1, hmain.2⟩
  rw [hmain.1]
  exact min_le_left _ _

/-- Witness for C1 at a concrete state holding twelve old backups: after the
open, exactly ten matching backups remain. -/
theorem backupOnOpen_retention_bound_witness :
    ((backupOnOpenM 100 (str "01-01-2020-12-00") stMany).fs.filter
        (matchesScan stMany.walletFile stMany.dataDir)).length ≤ 10 :=
  (backupOnOpen_retention_bound stMany 100 (str "01-01-2020-12-00")
    (by decide) (by decide)).1

/-! ## C3: openFile locking discipline -/

/-- C3: on every call of `openFile` the lock is taken before the OS-level
open attempt; a failed open releases the lock before returning, a successful
open leaves the lock held (depth one higher) until `closeFile` releases it, so
acquisitions and releases are balanced on both exit paths. -/
theorem openFile_lock_balanced (st : St) (ok : Bool) :
    ((openFileM ok st).1 = ok) ∧
    ((openFileM ok st).2.events
        = st.events ++ [Ev.lock, Ev.osOpen ok] ++ (if ok then [] else [Ev.unlock])) ∧
    ((openFileM ok st).2.lockDepth = st.lockDepth + (if ok then 1 else 0)) ∧
    ((closeFileM (openFileM true st).2).lockDepth = st.lockDepth) ∧
    ((closeFileM (openFileM true st).2).events
        = st.events ++ [Ev.lock, Ev.osOpen true, Ev.osClose, Ev.unlock]) := by
  cases ok <;> simp [openFileM, lockM, unlockM, closeFileM]

/-! ## C9: totality of the read-only getters -/

/-- C9: `getAddress`, `getActualBalance` and `getPendingBalance` are total:
with no wallet open they return the empty string / zero, and when the engine
getter throws `std::system_error` they also return the empty string / zero. -/
theorem getters_total (st : St) :
    (st.wallet = none →
      getAddressM st = [] ∧ getActualBalanceM st = 0 ∧ getPendingBalanceM st = 0) ∧
    (∀ w : EngineWallet, st.wallet = some w →
      (w.address = Except.error () → getAddressM st = []) ∧
      (w.actualBalance = Except.error () → getActualBalanceM st = 0) ∧
      (w.pendingBalance = Except.error () → getPendingBalanceM st = 0)) := by
  constructor
  · intro h; simp [getAddressM, getActualBalanceM, getPendingBalanceM, h]
  · intro w hw
    refine ⟨fun h => ?_, fun h => ?_, fun h => ?_⟩ <;>
      simp [getAddressM, getActualBalanceM, getPendingBalanceM, hw, h]

/-- Witness for C9 at a concrete state whose engine getters all throw, and at
the closed state. -/
theorem getters_total_witness :
    (getAddressM stWithThrowingWallet = [] ∧
      getActualBalanceM stWithThrowingWallet = 0 ∧
      getPendingBalanceM stWithThrowingWallet = 0) ∧
    getAddressM baseSt = [] := by
  have h := (getters_total stWithThrowingWallet).2 engThrowing rfl
  have h0 := (getters_total baseSt).1 rfl
  exact ⟨⟨h.1 rfl, h.2.1 rfl, h.2.2 rfl⟩, h0.1⟩

/-! ## C10: last-transaction notification is one-shot -/

/-- C10: when the stored last-transaction id is not the max-quint64 sentinel,
`notifyAboutLastTransaction` emits the transaction-created signal exactly once
and resets the id to the sentinel; when it is the sentinel the call is a
no-op, so the operation is idempotent on the adapter state. -/
theorem notify_last_transaction_once (st : St) :
    notifyAboutLastTransactionM (notifyAboutLastTransactionM st)
        = notifyAboutLastTransactionM st ∧
    (st.lastTxId ≠ QUINT64_MAX →
      (notifyAboutLastTransactionM st).signals
          = st.signals ++ [Signal.txCreated st.lastTxId] ∧
      (notifyAboutLastTransactionM st).lastTxId = QUINT64_MAX) ∧
    (st.lastTxId = QUINT64_MAX → notifyAboutLastTransactionM st = st) := by
  by_cases h : st.lastTxId = QUINT64_MAX <;>
    simp [notifyAboutLastTransactionM, h]

/-- Witness for C10 at a concrete state holding a recorded transaction id. -/
theorem notify_last_transaction_once_witness :
    (notifyAboutLastTransactionM baseSt).signals
        = baseSt.signals ++ [Signal.txCreated baseSt.lastTxId] ∧
    (notifyAboutLastTransactionM baseSt).lastTxId = QUINT64_MAX := by
  exact (notify_last_transaction_once baseSt).2.1 (by decide)

end WalletGui
